import Mathlib

/-!
A verification model of the eng-mat/shell repository: the IAM-policy merge
and apply logic of `vertexai_iam_policy_v2.py` and `vertexai_iam_policy.py`,
and the Infoblox pool-search, compound reservation and apply logic of
`full-subnet-automation/infoblox_gcp_subnet_automation.py` and
`infoblox-v3/create_infoblox.py`.  Each definition is a shallow embedding of
the corresponding Python function; external backends (gcloud, the Infoblox
WAPI) are modelled as explicit environments, and the calls issued to them are
recorded as traces.
-/

/-- An IAM policy binding: a role with its list of member strings.  Mirrors
the JSON objects with keys `role` and `members` that
`add_or_update_member_in_policy` manipulates.  Members are modelled as
strings, so the source filter keeping only string members is the identity. -/
structure Binding where
  role : String
  members : List String
deriving DecidableEq, Repr

/-- The scan inside `add_or_update_member_in_policy`
(`vertexai_iam_policy_v2.py`, lines 109-125): walk the bindings looking for
the first one whose role matches; return `none` when no binding matches (the
`binding_found = False` case), otherwise the binding list in which the
matching binding has the member appended exactly when it was absent. -/
def updateBindings : List Binding → String → String → Option (List Binding)
  | [], _, _ => none
  | b :: rest, role, mem =>
    if b.role = role then
      some ((if mem ∈ b.members then b else { b with members := b.members ++ [mem] }) :: rest)
    else
      match updateBindings rest role mem with
      | some rest2 => some (b :: rest2)
      | none => none

/-- `add_or_update_member_in_policy` with the member string already assembled:
update the first binding carrying the role, or append a fresh singleton
binding when no binding carries it.  The returned flag is the source's
`member_added_or_exists`, which the source sets to `True` on every reachable
path (member added, member already present, or new binding created). -/
def addGrant (policy : List Binding) (role mem : String) : List Binding × Bool :=
  match updateBindings policy role mem with
  | some p2 => (p2, true)
  | none => (policy ++ [{ role := role, members := [mem] }], true)

/-- `add_or_update_member_in_policy(policy_dict, role, member_type,
member_email)` from `vertexai_iam_policy_v2.py` lines 100-134: the member
string is the member type and email joined by a colon. -/
def add_or_update_member_in_policy (policy : List Binding)
    (role memberType memberEmail : String) : List Binding × Bool :=
  addGrant policy role (memberType ++ ":" ++ memberEmail)

/-- The grant-processing loops of `main` (`vertexai_iam_policy_v2.py`, lines
185-206): thread the policy through `add_or_update_member_in_policy` for each
(role, member) grant and accumulate `any_changes_made` as the disjunction of
the per-grant flags. -/
def merge (policy : List Binding) : List (String × String) → List Binding × Bool
  | [] => (policy, false)
  | g :: gs =>
    let r := addGrant policy g.1 g.2
    let rest := merge r.1 gs
    (rest.1, r.2 || rest.2)

/-- Python's `sorted(list(set(xs)))` applied to role strings in `main` of both
vertexai scripts: the distinct elements in ascending string order. -/
def sortedDedup (xs : List String) : List String :=
  List.insertionSort (· ≤ ·) xs.dedup

/-- The grant list that `main` derives for one principal: the deduplicated,
sorted roles, each paired with the member string built from the member type
and the principal's email. -/
def grantsFor (memberType email : String) (roles : List String) :
    List (String × String) :=
  (sortedDedup roles).map (fun r => (r, memberType ++ ":" ++ email))

/-- The whole grant-merging pipeline of `main` in `vertexai_iam_policy_v2.py`:
service-account roles are processed first (member type `serviceAccount`),
then AD-group roles (member type `group`); each section sorts its
deduplicated role set before merging.  `none` models an absent email
argument, which skips the section. -/
def mainMerge (policy : List Binding) (sa ad : Option (String × List String)) :
    List Binding × Bool :=
  let g1 := match sa with
    | some p => grantsFor "serviceAccount" p.1 p.2
    | none => []
  let g2 := match ad with
    | some p => grantsFor "group" p.1 p.2
    | none => []
  merge policy (g1 ++ g2)

/-- Whether the member string is already present in the first binding carrying
the role: the condition under which the scan in
`add_or_update_member_in_policy` leaves the policy unchanged. -/
def presentB : List Binding → String → String → Bool
  | [], _, _ => false
  | b :: rest, role, mem =>
    if b.role = role then decide (mem ∈ b.members) else presentB rest role mem

-- Basic lemmas about a single `addGrant` step.

theorem addGrant_snd (policy : List Binding) (role mem : String) :
    (addGrant policy role mem).2 = true := by
  unfold addGrant
  cases updateBindings policy role mem <;> rfl

theorem updateBindings_of_present (policy : List Binding) (role mem : String)
    (h : presentB policy role mem = true) :
    updateBindings policy role mem = some policy := by
  induction policy with
  | nil => simp [presentB] at h
  | cons b rest ih =>
    by_cases hr : b.role = role
    · simp only [presentB, if_pos hr] at h
      have hm := of_decide_eq_true h
      simp [updateBindings, hr, hm]
    · simp only [presentB, if_neg hr] at h
      simp [updateBindings, hr, ih h]

theorem addGrant_of_present (policy : List Binding) (role mem : String)
    (h : presentB policy role mem = true) :
    addGrant policy role mem = (policy, true) := by
  simp [addGrant, updateBindings_of_present policy role mem h]

theorem updateBindings_some_present (policy p2 : List Binding) (role mem : String)
    (h : updateBindings policy role mem = some p2) :
    presentB p2 role mem = true := by
  induction policy generalizing p2 with
  | nil => simp [updateBindings] at h
  | cons b rest ih =>
    by_cases hr : b.role = role
    · simp only [updateBindings, if_pos hr, Option.some.injEq] at h
      subst h
      by_cases hm : mem ∈ b.members
      · rw [if_pos hm]
        simp [presentB, hr, hm]
      · rw [if_neg hm]
        simp [presentB, hr]
    · simp only [updateBindings, if_neg hr] at h
      cases hu : updateBindings rest role mem with
      | none => rw [hu] at h; exact absurd h (by simp)
      | some rest2 =>
        rw [hu] at h
        simp only [Option.some.injEq] at h
        subst h
        simp [presentB, hr, ih rest2 hu]

theorem updateBindings_none (policy : List Binding) (role mem : String)
    (h : updateBindings policy role mem = none) :
    ∀ b ∈ policy, b.role ≠ role := by
  induction policy with
  | nil => simp
  | cons b rest ih =>
    by_cases hr : b.role = role
    · simp [updateBindings, hr] at h
    · simp only [updateBindings, if_neg hr] at h
      cases hu : updateBindings rest role mem with
      | none =>
        intro x hx
        rcases List.mem_cons.mp hx with hx | hx
        · subst hx; exact hr
        · exact ih hu x hx
      | some rest2 => rw [hu] at h; exact absurd h (by simp)

theorem presentB_append_left (policy l : List Binding) (role mem : String)
    (h : presentB policy role mem = true) :
    presentB (policy ++ l) role mem = true := by
  induction policy with
  | nil => simp [presentB] at h
  | cons b rest ih =>
    by_cases hr : b.role = role
    · simp only [presentB, if_pos hr] at h
      simpa [presentB, hr] using h
    · simp only [presentB, if_neg hr] at h
      simpa [presentB, hr] using ih h

theorem addGrant_present_after (policy : List Binding) (role mem : String) :
    presentB (addGrant policy role mem).1 role mem = true := by
  unfold addGrant
  cases hu : updateBindings policy role mem with
  | some p2 => simpa using updateBindings_some_present policy p2 role mem hu
  | none =>
    have hroles := updateBindings_none policy role mem hu
    induction policy with
    | nil => simp [presentB]
    | cons b rest ih =>
      have hbr : b.role ≠ role := hroles b (by simp)
      simp only [List.cons_append, presentB, if_neg hbr]
      by_cases hrest : updateBindings rest role mem = none
      · exact ih hrest (fun x hx => hroles x (by simp [hx]))
      · cases hr2 : updateBindings rest role mem with
        | none => exact absurd hr2 hrest
        | some rest2 =>
          exfalso
          simp [updateBindings, hbr, hr2] at hu

theorem updateBindings_preserves_present (policy p2 : List Binding)
    (role mem role' mem' : String)
    (h : updateBindings policy role mem = some p2)
    (hp : presentB policy role' mem' = true) :
    presentB p2 role' mem' = true := by
  induction policy generalizing p2 with
  | nil => simp [updateBindings] at h
  | cons b rest ih =>
    by_cases hr : b.role = role
    · simp only [updateBindings, if_pos hr, Option.some.injEq] at h
      subst h
      by_cases hm : mem ∈ b.members
      · rw [if_pos hm]
        simpa [presentB] using hp
      · rw [if_neg hm]
        by_cases hr' : b.role = role'
        · simp only [presentB, if_pos hr'] at hp
          have hp2 := of_decide_eq_true hp
          simp [presentB, hr', hp2]
        · simp only [presentB, if_neg hr'] at hp
          simpa [presentB, hr'] using hp
    · simp only [updateBindings, if_neg hr] at h
      cases hu : updateBindings rest role mem with
      | none => rw [hu] at h; exact absurd h (by simp)
      | some rest2 =>
        rw [hu] at h
        simp only [Option.some.injEq] at h
        subst h
        by_cases hr' : b.role = role'
        · simpa [presentB, hr'] using hp
        · simp only [presentB, if_neg hr'] at hp ⊢
          exact ih rest2 hu hp

theorem addGrant_preserves_present (policy : List Binding)
    (role mem role' mem' : String)
    (hp : presentB policy role' mem' = true) :
    presentB (addGrant policy role mem).1 role' mem' = true := by
  unfold addGrant
  cases hu : updateBindings policy role mem with
  | some p2 => simpa using updateBindings_preserves_present policy p2 role mem role' mem' hu hp
  | none => simpa using presentB_append_left policy _ role' mem' hp

-- Lemmas about `merge`.

theorem merge_snd (policy : List Binding) (grants : List (String × String)) :
    (merge policy grants).2 = !grants.isEmpty := by
  cases grants with
  | nil => rfl
  | cons g gs => simp [merge, addGrant_snd]

theorem merge_preserves_present (policy : List Binding)
    (grants : List (String × String)) (role' mem' : String)
    (hp : presentB policy role' mem' = true) :
    presentB (merge policy grants).1 role' mem' = true := by
  induction grants generalizing policy with
  | nil => simpa [merge] using hp
  | cons g gs ih =>
    simp only [merge]
    exact ih _ (addGrant_preserves_present policy g.1 g.2 role' mem' hp)

theorem merge_all_present (policy : List Binding)
    (grants : List (String × String)) :
    ∀ g ∈ grants, presentB (merge policy grants).1 g.1 g.2 = true := by
  induction grants generalizing policy with
  | nil => simp
  | cons g gs ih =>
    intro x hx
    rcases List.mem_cons.mp hx with hx | hx
    · subst hx
      simp only [merge]
      exact merge_preserves_present _ gs x.1 x.2 (addGrant_present_after policy x.1 x.2)
    · simp only [merge]
      exact ih _ x hx

theorem merge_fst_of_all_present (policy : List Binding)
    (grants : List (String × String))
    (h : ∀ g ∈ grants, presentB policy g.1 g.2 = true) :
    (merge policy grants).1 = policy := by
  induction grants with
  | nil => rfl
  | cons g gs ih =>
    have h1 : addGrant policy g.1 g.2 = (policy, true) :=
      addGrant_of_present policy g.1 g.2 (h g (by simp))
    simp only [merge, h1]
    exact ih (fun x hx => h x (by simp [hx]))

/-- An IAM policy document as fetched by `gcloud projects get-iam-policy`:
bindings plus the optional `etag` version token (`None` when the fetched JSON
carries no `etag` key). -/
structure PolicyDoc where
  bindings : List Binding
  etag : Option String
deriving DecidableEq, Repr

/-- Outcome of the `apply` branch of `main`: return without writing (`No
effective changes`), abort with an error because the fetched policy has no
etag, or issue the `set-iam-policy` write carrying the shown document. -/
inductive CommitResult
  | noOp
  | etagMissing
  | applied (written : PolicyDoc)
deriving DecidableEq, Repr

/-- The `apply` branch of `main` in `vertexai_iam_policy_v2.py`, lines
224-258.  `modified_policy` is the deep copy of the fetched policy with the
grants merged in; the merge never touches the etag.  The branch compares the
serialized bindings (`json.dumps` with sorted keys, which on these documents
is structural equality of the binding lists) and the two etags; when both
agree it reports nothing to apply, otherwise it requires an etag in the
fetched policy and issues the write with that etag stamped into the modified
document.  No token from the dry-run invocation is available here: the only
token in scope is the one fetched by this same invocation. -/
def applyDecision (current : PolicyDoc) (grants : List (String × String)) :
    CommitResult :=
  let modified : PolicyDoc :=
    { current with bindings := (merge current.bindings grants).1 }
  if modified.bindings = current.bindings ∧ modified.etag = current.etag then
    .noOp
  else
    match current.etag with
    | none => .etagMissing
    | some t => .applied { modified with etag := some t }

/-- Total size of a binding list: one unit per binding plus one per member. -/
def sizeB (policy : List Binding) : Nat :=
  (policy.map (fun b => 1 + b.members.length)).sum

/-- The roles of a policy's bindings, in order. -/
def rolesOf (policy : List Binding) : List String :=
  policy.map (fun b => b.role)

/-- Boolean test that two bindings carry the same role and the same member
set (mutual containment of the member lists). -/
def bindingEquivB (b b' : Binding) : Bool :=
  decide (b.role = b'.role) &&
    b.members.all (fun x => decide (x ∈ b'.members)) &&
    b'.members.all (fun x => decide (x ∈ b.members))

/-- Boolean test that two binding lists are equal as sets of bindings, a
binding being compared as its role together with its member set. -/
def docSetEqB (P Q : List Binding) : Bool :=
  P.all (fun b => Q.any (fun b' => bindingEquivB b b')) &&
    Q.all (fun b' => P.any (fun b => bindingEquivB b b'))

theorem bindingEquivB_refl (b : Binding) : bindingEquivB b b = true := by
  simp [bindingEquivB, List.all_eq_true]

theorem docSetEqB_refl (P : List Binding) : docSetEqB P P = true := by
  simp only [docSetEqB, Bool.and_eq_true, List.all_eq_true]
  constructor
  · intro b hb
    exact List.any_eq_true.mpr ⟨b, hb, bindingEquivB_refl b⟩
  · intro b hb
    exact List.any_eq_true.mpr ⟨b, hb, bindingEquivB_refl b⟩

theorem bindingEquivB_key (b b' : Binding) (h : bindingEquivB b b' = true) :
    b.role = b'.role ∧ b.members.toFinset = b'.members.toFinset := by
  simp only [bindingEquivB, Bool.and_eq_true, List.all_eq_true,
    decide_eq_true_eq] at h
  refine ⟨h.1.1, ?_⟩
  ext x
  simp only [List.mem_toFinset]
  exact ⟨fun hx => h.1.2 x hx, fun hx => h.2 x hx⟩

-- Size behaviour of a single grant step.

theorem updateBindings_size (policy p2 : List Binding) (role mem : String)
    (h : updateBindings policy role mem = some p2) :
    p2 = policy ∨ sizeB p2 = sizeB policy + 1 := by
  induction policy generalizing p2 with
  | nil => simp [updateBindings] at h
  | cons b rest ih =>
    by_cases hr : b.role = role
    · simp only [updateBindings, if_pos hr, Option.some.injEq] at h
      subst h
      by_cases hm : mem ∈ b.members
      · left; rw [if_pos hm]
      · right
        rw [if_neg hm]
        simp only [sizeB, List.map_cons, List.sum_cons, List.length_append,
          List.length_cons, List.length_nil]
        omega
    · simp only [updateBindings, if_neg hr] at h
      cases hu : updateBindings rest role mem with
      | none => rw [hu] at h; exact absurd h (by simp)
      | some rest2 =>
        rw [hu] at h
        simp only [Option.some.injEq] at h
        subst h
        rcases ih rest2 hu with he | hs
        · left; rw [he]
        · right
          simp only [sizeB, List.map_cons, List.sum_cons] at hs ⊢
          omega

theorem addGrant_size (policy : List Binding) (role mem : String) :
    (addGrant policy role mem).1 = policy ∨
      sizeB policy < sizeB (addGrant policy role mem).1 := by
  unfold addGrant
  cases hu : updateBindings policy role mem with
  | some p2 =>
    rcases updateBindings_size policy p2 role mem hu with he | hs
    · left; simpa using he
    · right
      show sizeB policy < sizeB p2
      omega
  | none =>
    right
    simp only [sizeB, List.map_append, List.sum_append, List.map_cons,
      List.sum_cons, List.map_nil, List.sum_nil]
    omega

theorem merge_size_le (policy : List Binding) (grants : List (String × String)) :
    sizeB policy ≤ sizeB (merge policy grants).1 := by
  induction grants generalizing policy with
  | nil => simp [merge]
  | cons g gs ih =>
    simp only [merge]
    rcases addGrant_size policy g.1 g.2 with he | hlt
    · rw [he]; exact ih policy
    · exact le_trans (le_of_lt hlt) (ih _)

theorem merge_size_eq (policy : List Binding) (grants : List (String × String)) :
    (merge policy grants).1 = policy ∨
      sizeB policy < sizeB (merge policy grants).1 := by
  induction grants generalizing policy with
  | nil => left; rfl
  | cons g gs ih =>
    simp only [merge]
    rcases addGrant_size policy g.1 g.2 with he | hlt
    · rw [he]; exact ih policy
    · right
      exact lt_of_lt_of_le hlt (merge_size_le _ gs)

-- Role and member-set invariants preserved by the merge.

theorem updateBindings_roles (policy p2 : List Binding) (role mem : String)
    (h : updateBindings policy role mem = some p2) :
    rolesOf p2 = rolesOf policy := by
  induction policy generalizing p2 with
  | nil => simp [updateBindings] at h
  | cons b rest ih =>
    by_cases hr : b.role = role
    · simp only [updateBindings, if_pos hr, Option.some.injEq] at h
      subst h
      by_cases hm : mem ∈ b.members
      · rw [if_pos hm]
      · rw [if_neg hm]
        simp [rolesOf]
    · simp only [updateBindings, if_neg hr] at h
      cases hu : updateBindings rest role mem with
      | none => rw [hu] at h; exact absurd h (by simp)
      | some rest2 =>
        rw [hu] at h
        simp only [Option.some.injEq] at h
        subst h
        simp [rolesOf] at ih ⊢
        exact ih rest2 hu

theorem addGrant_rolesNodup (policy : List Binding) (role mem : String)
    (h : (rolesOf policy).Nodup) :
    (rolesOf (addGrant policy role mem).1).Nodup := by
  unfold addGrant
  cases hu : updateBindings policy role mem with
  | some p2 => simpa [updateBindings_roles policy p2 role mem hu] using h
  | none =>
    have hn : role ∉ rolesOf policy := by
      intro hmem
      simp only [rolesOf, List.mem_map] at hmem
      rcases hmem with ⟨b, hb, hbr⟩
      exact updateBindings_none policy role mem hu b hb hbr
    simp only [rolesOf, List.map_append, List.map_cons, List.map_nil]
    simp only [rolesOf] at h hn
    simp [List.nodup_append, h, hn]

theorem merge_rolesNodup (policy : List Binding) (grants : List (String × String))
    (h : (rolesOf policy).Nodup) :
    (rolesOf (merge policy grants).1).Nodup := by
  induction grants generalizing policy with
  | nil => simpa [merge] using h
  | cons g gs ih =>
    simp only [merge]
    exact ih _ (addGrant_rolesNodup policy g.1 g.2 h)

theorem updateBindings_membersNodup (policy p2 : List Binding) (role mem : String)
    (h : updateBindings policy role mem = some p2)
    (hm : ∀ b ∈ policy, b.members.Nodup) :
    ∀ b ∈ p2, b.members.Nodup := by
  induction policy generalizing p2 with
  | nil => simp [updateBindings] at h
  | cons b rest ih =>
    by_cases hr : b.role = role
    · simp only [updateBindings, if_pos hr, Option.some.injEq] at h
      subst h
      by_cases hmem : mem ∈ b.members
      · rw [if_pos hmem]; exact hm
      · rw [if_neg hmem]
        intro x hx
        rcases List.mem_cons.mp hx with hx | hx
        · subst hx
          simp only []
          have := hm b (by simp)
          simp [List.nodup_append, this, hmem]
        · exact hm x (by simp [hx])
    · simp only [updateBindings, if_neg hr] at h
      cases hu : updateBindings rest role mem with
      | none => rw [hu] at h; exact absurd h (by simp)
      | some rest2 =>
        rw [hu] at h
        simp only [Option.some.injEq] at h
        subst h
        intro x hx
        rcases List.mem_cons.mp hx with hx | hx
        · subst hx; exact hm x (by simp)
        · exact ih rest2 hu (fun y hy => hm y (by simp [hy])) x hx

theorem addGrant_membersNodup (policy : List Binding) (role mem : String)
    (hm : ∀ b ∈ policy, b.members.Nodup) :
    ∀ b ∈ (addGrant policy role mem).1, b.members.Nodup := by
  unfold addGrant
  cases hu : updateBindings policy role mem with
  | some p2 =>
    intro x hx
    exact updateBindings_membersNodup policy p2 role mem hu hm x (by simpa using hx)
  | none =>
    intro x hx
    simp only [List.mem_append, List.mem_cons, List.mem_singleton] at hx
    rcases hx with hx | hx
    · exact hm x hx
    · simp only [List.not_mem_nil, or_false] at hx
      subst hx
      simp

theorem merge_membersNodup (policy : List Binding)
    (grants : List (String × String))
    (hm : ∀ b ∈ policy, b.members.Nodup) :
    ∀ b ∈ (merge policy grants).1, b.members.Nodup := by
  induction grants generalizing policy with
  | nil => simpa [merge] using hm
  | cons g gs ih =>
    simp only [merge]
    exact ih _ (addGrant_membersNodup policy g.1 g.2 hm)

-- Set-equality of binding lists forces equal sizes, given the document
-- invariants (one binding per role, no duplicate members inside a binding).

theorem docSetEqB_sizeB (P Q : List Binding) (h : docSetEqB P Q = true)
    (hrP : (rolesOf P).Nodup) (hrQ : (rolesOf Q).Nodup)
    (hmP : ∀ b ∈ P, b.members.Nodup) (hmQ : ∀ b ∈ Q, b.members.Nodup) :
    sizeB P = sizeB Q := by
  classical
  have hkP : (P.map (fun b => (b.role, b.members.toFinset))).Nodup := by
    refine List.Nodup.of_map Prod.fst ?_
    simpa [List.map_map, Function.comp, rolesOf] using hrP
  have hkQ : (Q.map (fun b => (b.role, b.members.toFinset))).Nodup := by
    refine List.Nodup.of_map Prod.fst ?_
    simpa [List.map_map, Function.comp, rolesOf] using hrQ
  simp only [docSetEqB, Bool.and_eq_true, List.all_eq_true] at h
  have hmem : ∀ k, k ∈ P.map (fun b => (b.role, b.members.toFinset)) ↔
      k ∈ Q.map (fun b => (b.role, b.members.toFinset)) := by
    intro k
    simp only [List.mem_map]
    constructor
    · rintro ⟨b, hb, rfl⟩
      rcases List.any_eq_true.mp (h.1 b hb) with ⟨b', hb', hbe⟩
      rcases bindingEquivB_key b b' hbe with ⟨h1, h2⟩
      exact ⟨b', hb', by rw [h1, h2]⟩
    · rintro ⟨b', hb', rfl⟩
      rcases List.any_eq_true.mp (h.2 b' hb') with ⟨b, hb, hbe⟩
      rcases bindingEquivB_key b b' hbe with ⟨h1, h2⟩
      exact ⟨b, hb, by rw [h1, h2]⟩
  have hperm := (List.perm_ext_iff_of_nodup hkP hkQ).mpr hmem
  have hsum := (hperm.map (fun k => 1 + k.2.card)).sum_eq
  have hP : sizeB P =
      ((P.map (fun b => (b.role, b.members.toFinset))).map
        (fun k => 1 + k.2.card)).sum := by
    simp only [sizeB, List.map_map, Function.comp]
    congr 1
    refine List.map_congr_left ?_
    intro b hb
    simp only [Function.comp_apply]
    rw [List.toFinset_card_of_nodup (hmP b hb)]
  have hQ : sizeB Q =
      ((Q.map (fun b => (b.role, b.members.toFinset))).map
        (fun k => 1 + k.2.card)).sum := by
    simp only [sizeB, List.map_map, Function.comp]
    congr 1
    refine List.map_congr_left ?_
    intro b hb
    simp only [Function.comp_apply]
    rw [List.toFinset_card_of_nodup (hmQ b hb)]
  rw [hP, hQ, hsum]

/-- Along the script's data flow the merged document is set-equal to the
fetched one exactly when it is literally equal to it: the merge only ever
appends strictly new material, so set-equality forces the merge to have been
a no-op.  Requires the document invariants of a well-formed policy. -/
theorem merge_eq_of_docSetEq (P : List Binding) (G : List (String × String))
    (hrP : (rolesOf P).Nodup) (hmP : ∀ b ∈ P, b.members.Nodup)
    (h : docSetEqB (merge P G).1 P = true) :
    (merge P G).1 = P := by
  rcases merge_size_eq P G with he | hlt
  · exact he
  · exfalso
    have hsz := docSetEqB_sizeB (merge P G).1 P h
      (merge_rolesNodup P G hrP) hrP (merge_membersNodup P G hmP) hmP
    omega

/-- `sorted(list(set(xs)))` depends only on which roles occur, not on the
order or multiplicity in which the caller supplies them. -/
theorem sortedDedup_ext (xs ys : List String) (h : ∀ r, r ∈ xs ↔ r ∈ ys) :
    sortedDedup xs = sortedDedup ys := by
  have hsx : (sortedDedup xs).Nodup :=
    ((List.perm_insertionSort _ xs.dedup).nodup_iff).mpr (List.nodup_dedup xs)
  have hsy : (sortedDedup ys).Nodup :=
    ((List.perm_insertionSort _ ys.dedup).nodup_iff).mpr (List.nodup_dedup ys)
  have hmem : ∀ r, r ∈ sortedDedup xs ↔ r ∈ sortedDedup ys := by
    intro r
    simp [sortedDedup, List.mem_insertionSort, List.mem_dedup, h r]
  exact List.eq_of_perm_of_sorted ((List.perm_ext_iff_of_nodup hsx hsy).mpr hmem)
    (List.sorted_insertionSort _ _) (List.sorted_insertionSort _ _)

-- The Infoblox pool-search scripts.

/-- One call issued to the Infoblox WAPI backend: the GET resolving a
supernet container reference, the POST asking a container for its next
available network of a given size, or the POST creating (reserving) a
network. -/
inductive Call
  | getRef (view : Option String) (supernet : String)
  | nextAvail (ref : String) (cidrSize : Nat)
  | createNetwork (network comment siteCode : String)
deriving DecidableEq, Repr

/-- The Infoblox WAPI backend as the scripts observe it.  `containerRef view
supernet` is the GET on `/networkcontainer`: `none` models a raised
`RequestException` (connection error or non-2xx status), `some none` a
well-formed response without a usable `_ref`, and `some (some ref)` the found
reference.  `nextAvailable ref size` is the POST of the
`next_available_network` function on that reference: `none` a raised
`RequestException`, `some []` a response carrying no networks, `some (n ::
rest)` a response whose first proposed network is `n`.  `createNetwork
network comment siteCode` is the POST on `/network` reserving the block:
`true` on success, `false` when the request raises. -/
structure InfobloxEnv where
  containerRef : Option String → String → Option (Option String)
  nextAvailable : String → Nat → Option (List String)
  createNetwork : String → String → String → Bool

/-- The body of the supernet loop shared by `find_next_available_cidr`
(`infoblox-v3/create_infoblox.py`, lines 44-85) and
`_find_one_available_cidr` (`infoblox_gcp_subnet_automation.py`, lines
69-99): resolve the container reference, and when that succeeds ask it for
one next available network of the requested size.  Every failure mode (GET
exception, missing reference, POST exception, empty network list) yields
`none`, which makes the caller continue with the next supernet.  The calls
issued are returned alongside. -/
def probePool (env : InfobloxEnv) (view : Option String) (cidrSize : Nat)
    (supernet : String) : Option String × List Call :=
  match env.containerRef view supernet with
  | none => (none, [.getRef view supernet])
  | some none => (none, [.getRef view supernet])
  | some (some ref) =>
    match env.nextAvailable ref cidrSize with
    | none => (none, [.getRef view supernet, .nextAvail ref cidrSize])
    | some [] => (none, [.getRef view supernet, .nextAvail ref cidrSize])
    | some (net :: _) =>
      (some net, [.getRef view supernet, .nextAvail ref cidrSize])

/-- `find_next_available_cidr(session, infoblox_url, network_view,
supernet_list, cidr_block_size)`: walk the supernets in the given order and
return the first proposed network together with the supernet it came from
(`return proposed_network, supernet_ip`), or `(None, None)` when every
supernet failed (`return None, None`).  `_find_one_available_cidr` in the
full-subnet-automation script implements the identical iteration and is
embedded by this same definition. -/
def find_next_available_cidr (env : InfobloxEnv) (view : Option String)
    (cidrSize : Nat) : List String → Option (String × String) × List Call
  | [] => (none, [])
  | s :: rest =>
    match probePool env view cidrSize s with
    | (some net, cs) => (some (net, s), cs)
    | (none, cs) =>
      let r := find_next_available_cidr env view cidrSize rest
      (r.1, cs ++ r.2)

/-- `reserve_cidr(session, infoblox_url, proposed_subnet, subnet_name,
site_code)` from `infoblox-v3/create_infoblox.py`, lines 91-112: POST the
proposed subnet to `/network` with the subnet name as comment and the site
code as extensible attribute; `True` on success, `False` when the request
raises. -/
def reserve_cidr (env : InfobloxEnv) (proposed_subnet subnet_name site_code :
    String) : Bool × List Call :=
  (env.createNetwork proposed_subnet subnet_name site_code,
    [.createNetwork proposed_subnet subnet_name site_code])

/-- Exit status of the `apply` action of `main` in
`infoblox-v3/create_infoblox.py`, lines 197-204: `ok` when the reservation
succeeded, `failed` for the `APPLY FAILED` + `exit(1)` path. -/
inductive ApplyOutcome
  | ok
  | failed
deriving DecidableEq, Repr

/-- The `apply` action of `main` in `infoblox-v3/create_infoblox.py`: reserve
exactly the proposed subnet received from the dry-run hand-off and exit
nonzero when the reservation fails.  No pool search is involved. -/
def apply_action (env : InfobloxEnv) (proposed_subnet subnet_name site_code :
    String) : ApplyOutcome × List Call :=
  let r := reserve_cidr env proposed_subnet subnet_name site_code
  (if r.1 then .ok else .failed, r.2)

/-- One entry of the `INFRA_MAPPINGS_JSON` configuration consumed by
`reserve_ips_in_infoblox`.  Fields are optional because the source reads
them with `.get` and checks only some of them for truthiness; a missing or
empty value is modelled as `none`. -/
structure NetworkConfig where
  host_project_id : Option String
  vpc_name : Option String
  supernets : Option (List String)
  network_view : Option String
  non_routable_key : Option String
deriving DecidableEq, Repr

/-- The arguments of the `reserve-ips` action that the reservation logic
reads. -/
structure ReserveArgs where
  subnet_purpose : String
  network_type : String
  primary_cidr_size : Nat
  gke_pods_cidr_size : Nat
  gke_services_cidr_size : Nat
deriving DecidableEq, Repr

/-- Result of `reserve_ips_in_infoblox`.  `failure` is the all-`None`
six-tuple the source returns on every error path; `crash` is the unhandled
`TypeError` raised when the non-routable configuration exists but carries no
supernet list (the source iterates it without checking); `success` carries
the tuple `(host_project_id, vpc_name, primary_cidr, pods_cidr,
services_cidr, supernet_used)`. -/
inductive ReserveOutcome
  | failure
  | crash
  | success (hostProject : String) (vpcName : Option String) (primary : String)
      (pods services : Option String) (supernetUsed : String)
deriving DecidableEq, Repr

/-- `reserve_ips_in_infoblox(session, infoblox_url, infra_mappings, args)`
from `infoblox_gcp_subnet_automation.py`, lines 104-159: validate the
configuration for the requested network type, reserve the primary CIDR, and
for a GKE Cluster purpose additionally reserve the pods CIDR and then the
services CIDR from the non-routable configuration, failing afterwards when
either secondary reservation came back empty.  Every error path returns the
all-`None` tuple; the WAPI calls issued are returned alongside. -/
def reserve_ips_in_infoblox (env : InfobloxEnv)
    (infra_mappings : String → Option NetworkConfig) (args : ReserveArgs) :
    ReserveOutcome × List Call :=
  match infra_mappings args.network_type with
  | none => (.failure, [])
  | some cfg =>
    match cfg.host_project_id, cfg.supernets, cfg.network_view with
    | some hp, some sups, some nv =>
      if args.subnet_purpose ≠ "PSC Endpoint" ∧ cfg.vpc_name = none then
        (.failure, [])
      else
        let fp := find_next_available_cidr env (some nv) args.primary_cidr_size sups
        match fp.1 with
        | none => (.failure, fp.2)
        | some pr =>
          if args.subnet_purpose = "GKE Cluster" then
            match cfg.non_routable_key with
            | none => (.failure, fp.2)
            | some key =>
              match infra_mappings key with
              | none => (.failure, fp.2)
              | some nrCfg =>
                match nrCfg.supernets with
                | none => (.crash, fp.2)
                | some nrSups =>
                  let fpods := find_next_available_cidr env nrCfg.network_view
                    args.gke_pods_cidr_size nrSups
                  let fsvcs := find_next_available_cidr env nrCfg.network_view
                    args.gke_services_cidr_size nrSups
                  let calls := fp.2 ++ fpods.2 ++ fsvcs.2
                  match fpods.1, fsvcs.1 with
                  | some pc, some sc =>
                    (.success hp cfg.vpc_name pr.1 (some pc.1) (some sc.1) pr.2,
                      calls)
                  | _, _ => (.failure, calls)
          else
            (.success hp cfg.vpc_name pr.1 none none pr.2, fp.2)
    | _, _, _ => (.failure, [])

-- The first vertexai script, `vertexai_iam_policy.py`.

/-- Kind of stream bound to `sys.stdout`: an in-memory `io.StringIO` buffer,
or the ordinary text stream of a normal process run. -/
inductive StreamKind
  | memoryBuffer
  | ordinaryStream
deriving DecidableEq, Repr

/-- The state of `sys.stdout`: its kind plus the lines printed so far. -/
structure OutState where
  kind : StreamKind
  lines : List String
deriving DecidableEq, Repr

/-- A `print(...)` call: append one line to standard output. -/
def printLine (o : OutState) (l : String) : OutState :=
  { o with lines := o.lines ++ [l] }

/-- The exception raised by evaluating `sys.stdout.getvalue()` when stdout is
an ordinary text stream: `getvalue` is an attribute of `io.StringIO`, not of
`io.TextIOWrapper`, so the attribute lookup raises `AttributeError`. -/
def attributeErrorMsg : String :=
  "AttributeError: the stdout object has no attribute getvalue"

/-- `sys.stdout.getvalue().splitlines()`: the printed lines when stdout is a
StringIO buffer, and a raised `AttributeError` for an ordinary stream. -/
def getvalueLines (o : OutState) : Except String (List String) :=
  match o.kind with
  | .memoryBuffer => .ok o.lines
  | .ordinaryStream => .error attributeErrorMsg

/-- Python's substring test `pat in line` for a nonempty pattern, expressed
through `splitOn`: the pattern occurs iff splitting on it yields more than
one piece. -/
def containsText (line pat : String) : Bool :=
  (line.splitOn pat).length != 1

/-- The `already exists` message printed by `add_or_update_member_in_policy`
(quote characters elided). -/
def lineAlreadyExists (role ms : String) : String :=
  "  Member " ++ ms ++ " already exists in role " ++ role ++ ". Skipping."

/-- The `Adding member` message printed by `add_or_update_member_in_policy`
(quote characters elided). -/
def lineAddingMember (role ms : String) : String :=
  "  Adding member " ++ ms ++ " to existing role " ++ role ++ "."

/-- The `Adding new binding` message printed by
`add_or_update_member_in_policy` (quote characters elided). -/
def lineNewBinding (role ms : String) : String :=
  "  Adding new binding for role " ++ role ++ " with member " ++ ms ++ "."

/-- The scan of `add_or_update_member_in_policy` in `vertexai_iam_policy.py`
(identical to the v2 scan), additionally reporting the line the branch
prints. -/
def updateBindingsLine : List Binding → String → String →
    Option (List Binding × String)
  | [], _, _ => none
  | b :: rest, role, mem =>
    if b.role = role then
      some (if mem ∈ b.members then (b :: rest, lineAlreadyExists role mem)
        else ({ b with members := b.members ++ [mem] } :: rest,
          lineAddingMember role mem))
    else
      match updateBindingsLine rest role mem with
      | some r => some (b :: r.1, r.2)
      | none => none

/-- `add_or_update_member_in_policy` of `vertexai_iam_policy.py` (lines
107-141) with the member string assembled: new policy, the
`member_added_or_exists` flag (again `True` on every path), and the printed
line. -/
def addGrantV1 (policy : List Binding) (role mem : String) :
    List Binding × Bool × String :=
  match updateBindingsLine policy role mem with
  | some r => (r.1, true, r.2)
  | none =>
    (policy ++ [{ role := role, members := [mem] }], true,
      lineNewBinding role mem)

/-- One iteration of the role loops in `main` of `vertexai_iam_policy.py`
(lines 228-233 and 248-251): apply the grant (which prints its line), and
when the returned flag is set, inspect `sys.stdout.getvalue().splitlines()`
and mark `any_actual_modifications` when the last printed line does not
contain `already exists`.  The state is (stdout, policy,
`any_actual_modifications`). -/
def v1RoleStep (memberType memberEmail : String)
    (st : OutState × List Binding × Bool) (role : String) :
    Except String (OutState × List Binding × Bool) :=
  let r := addGrantV1 st.2.1 role (memberType ++ ":" ++ memberEmail)
  let out2 := printLine st.1 r.2.2
  if r.2.1 then do
    let buf ← getvalueLines out2
    if containsText (buf.getLastD "") "already exists" then
      pure (out2, r.1, st.2.2)
    else
      pure (out2, r.1, true)
  else
    pure (out2, r.1, st.2.2)

/-- One principal section of `main` in `vertexai_iam_policy.py`: skipped
when the email argument is absent; otherwise the deduplicated sorted roles
are processed in order (after the `Processing roles` header print), or the
skip message is printed when the role set is empty. -/
def v1ProcessSection (memberType : String)
    (sect : Option (String × List String))
    (st : OutState × List Binding × Bool) :
    Except String (OutState × List Binding × Bool) :=
  match sect with
  | none => pure st
  | some p =>
    let rs := sortedDedup p.2
    if rs.isEmpty then
      pure (printLine st.1 "No roles specified or resolved. Skipping.",
        st.2.1, st.2.2)
    else
      rs.foldlM (v1RoleStep memberType p.1)
        (printLine st.1 ("Processing roles for: " ++ p.1), st.2.1, st.2.2)

/-- The output stage reached at the end of `main` in
`vertexai_iam_policy.py`: the dry-run report, or the apply decision. -/
inductive V1Output
  | dryRunNoChanges
  | dryRunProposed
  | applyNothing
  | applyEtagError
  | applyWrite (written : PolicyDoc)
deriving DecidableEq, Repr

instance : DecidableRel (fun a b : Binding => a.role ≤ b.role) :=
  fun a b => inferInstanceAs (Decidable (a.role ≤ b.role))

/-- `sorted(bindings, key=lambda b: b["role"])`, the stable role sort both
output branches of `vertexai_iam_policy.py` apply before comparing
serializations. -/
def sortByRole (policy : List Binding) : List Binding :=
  List.insertionSort (fun a b => a.role ≤ b.role) policy

/-- `main` of `vertexai_iam_policy.py` from the role-processing loops on:
process the service-account section, then the AD-group section, then emit
the dry-run report or the apply decision by comparing the role-sorted
serialized bindings (and, for apply, the etags, the modified document
keeping the fetched etag).  An exception raised while processing roles
propagates and no output stage is reached. -/
def v1Main (mode : String) (out0 : OutState) (current : PolicyDoc)
    (sa ad : Option (String × List String)) :
    Except String (OutState × V1Output) := do
  let st1 ← v1ProcessSection "serviceAccount" sa (out0, current.bindings, false)
  let st2 ← v1ProcessSection "group" ad st1
  let modifiedDoc : PolicyDoc := { bindings := st2.2.1, etag := current.etag }
  if mode = "dry-run" then
    pure (st2.1,
      if sortByRole current.bindings = sortByRole modifiedDoc.bindings then
        .dryRunNoChanges
      else .dryRunProposed)
  else
    if sortByRole current.bindings = sortByRole modifiedDoc.bindings ∧
        current.etag = modifiedDoc.etag then
      pure (st2.1, .applyNothing)
    else
      match current.etag with
      | none => pure (st2.1, .applyEtagError)
      | some t =>
        pure (st2.1, .applyWrite { bindings := modifiedDoc.bindings, etag := some t })

theorem except_bind_ok {α β ε : Type} (a : α) (f : α → Except ε β) :
    (Except.ok a >>= f) = f a := rfl

theorem except_bind_error {α β ε : Type} (e : ε) (f : α → Except ε β) :
    ((Except.error e : Except ε α) >>= f) = Except.error e := rfl

theorem addGrantV1_flag (policy : List Binding) (role mem : String) :
    (addGrantV1 policy role mem).2.1 = true := by
  unfold addGrantV1
  cases updateBindingsLine policy role mem <;> rfl

theorem v1RoleStep_ordinary (memberType memberEmail role : String)
    (st : OutState × List Binding × Bool) (h : st.1.kind = .ordinaryStream) :
    v1RoleStep memberType memberEmail st role = .error attributeErrorMsg := by
  simp only [v1RoleStep, addGrantV1_flag, if_true]
  have hgv : getvalueLines
      (printLine st.1
        (addGrantV1 st.2.1 role (memberType ++ ":" ++ memberEmail)).2.2) =
      .error attributeErrorMsg := by
    simp [getvalueLines, printLine, h]
  rw [hgv]
  rfl

theorem v1ProcessSection_ordinary_error (memberType : String)
    (p : String × List String) (st : OutState × List Binding × Bool)
    (h : st.1.kind = .ordinaryStream) (hne : ¬ (sortedDedup p.2).isEmpty) :
    v1ProcessSection memberType (some p) st = .error attributeErrorMsg := by
  unfold v1ProcessSection
  cases hrs : sortedDedup p.2 with
  | nil => rw [hrs] at hne; exact absurd rfl hne
  | cons r rest =>
    simp only [hrs, List.isEmpty_cons, Bool.false_eq_true, if_false,
      List.foldlM_cons]
    rw [v1RoleStep_ordinary memberType p.1 r
      (printLine st.1 ("Processing roles for: " ++ p.1), st.2.1, st.2.2) h]
    rfl

theorem v1ProcessSection_skip (memberType : String)
    (sect : Option (String × List String)) (st : OutState × List Binding × Bool)
    (h : ∀ p, sect = some p → (sortedDedup p.2).isEmpty) :
    ∃ st2, v1ProcessSection memberType sect st = .ok st2 ∧
      st2.1.kind = st.1.kind := by
  cases sect with
  | none => exact ⟨st, rfl, rfl⟩
  | some p =>
    have hp := h p rfl
    refine ⟨(printLine st.1 "No roles specified or resolved. Skipping.",
      st.2.1, st.2.2), ?_, rfl⟩
    simp [v1ProcessSection, hp]
    rfl

-- Preservation of existing bindings and members by the merge.

theorem updateBindings_keeps (policy p2 : List Binding) (role mem : String)
    (h : updateBindings policy role mem = some p2) :
    ∀ b ∈ policy, ∃ b2 ∈ p2, b2.role = b.role ∧
      ∀ x ∈ b.members, x ∈ b2.members := by
  induction policy generalizing p2 with
  | nil => simp [updateBindings] at h
  | cons c rest ih =>
    by_cases hr : c.role = role
    · simp only [updateBindings, if_pos hr, Option.some.injEq] at h
      subst h
      intro b hb
      rcases List.mem_cons.mp hb with hb | hb
      · subst hb
        by_cases hm : mem ∈ b.members
        · rw [if_pos hm]
          exact ⟨b, by simp, rfl, fun x hx => hx⟩
        · rw [if_neg hm]
          refine ⟨{ b with members := b.members ++ [mem] }, by simp, rfl, ?_⟩
          intro x hx
          simp [hx]
      · exact ⟨b, by simp [hb], rfl, fun x hx => hx⟩
    · simp only [updateBindings, if_neg hr] at h
      cases hu : updateBindings rest role mem with
      | none => rw [hu] at h; exact absurd h (by simp)
      | some rest2 =>
        rw [hu] at h
        simp only [Option.some.injEq] at h
        subst h
        intro b hb
        rcases List.mem_cons.mp hb with hb | hb
        · subst hb
          exact ⟨b, by simp, rfl, fun x hx => hx⟩
        · rcases ih rest2 hu b hb with ⟨b2, hb2, hrole, hmem⟩
          exact ⟨b2, by simp [hb2], hrole, hmem⟩

theorem addGrant_keeps (policy : List Binding) (role mem : String) :
    ∀ b ∈ policy, ∃ b2 ∈ (addGrant policy role mem).1, b2.role = b.role ∧
      ∀ x ∈ b.members, x ∈ b2.members := by
  unfold addGrant
  cases hu : updateBindings policy role mem with
  | some p2 =>
    intro b hb
    simpa using updateBindings_keeps policy p2 role mem hu b hb
  | none =>
    intro b hb
    exact ⟨b, by simp [hb], rfl, fun x hx => hx⟩

theorem merge_keeps (policy : List Binding) (grants : List (String × String)) :
    ∀ b ∈ policy, ∃ b2 ∈ (merge policy grants).1, b2.role = b.role ∧
      ∀ x ∈ b.members, x ∈ b2.members := by
  induction grants generalizing policy with
  | nil =>
    intro b hb
    exact ⟨b, by simpa [merge] using hb, rfl, fun x hx => hx⟩
  | cons g gs ih =>
    intro b hb
    rcases addGrant_keeps policy g.1 g.2 b hb with ⟨b1, hb1, hrole1, hmem1⟩
    rcases ih (addGrant policy g.1 g.2).1 b1 hb1 with ⟨b2, hb2, hrole2, hmem2⟩
    refine ⟨b2, ?_, hrole2.trans hrole1, fun x hx => hmem2 x (hmem1 x hx)⟩
    simpa [merge] using hb2

-- Claim theorems.

/-- C1 counterexample: grant `serviceAccount:sa@x / roles/a` against a policy
that already contains binding `roles/a` with that member.  The claim demands
`changed = false`; the code returns the bindings unchanged but with the
change flag set, because `member_added_or_exists` is `True` on every path of
`add_or_update_member_in_policy`, including the `already exists` path. -/
theorem C1_counterexample :
    merge [{ role := "roles/a", members := ["serviceAccount:sa@x"] }]
        [("roles/a", "serviceAccount:sa@x")] =
      ([{ role := "roles/a", members := ["serviceAccount:sa@x"] }], true) := by
  decide

/-- C1 amended: the aggregated change flag is true iff at least one grant was
processed at all (the grant list is nonempty), not iff something was newly
added; when every grant's (role, principal) pair is already present in the
input document the binding list is returned unchanged (equal to the input),
but the flag is still true whenever the grant list is nonempty. -/
theorem C1_changed_flag (policy : List Binding)
    (grants : List (String × String)) :
    ((merge policy grants).2 = true ↔ grants ≠ []) ∧
      ((∀ g ∈ grants, presentB policy g.1 g.2 = true) →
        (merge policy grants).1 = policy) := by
  constructor
  · rw [merge_snd]
    cases grants <;> simp
  · exact merge_fst_of_all_present policy grants

/-- C1 witness: the amended claim evaluated at the already-satisfied grant. -/
theorem C1_witness :
    ((merge [{ role := "roles/a", members := ["serviceAccount:sa@x"] }]
        [("roles/a", "serviceAccount:sa@x")]).2 = true ↔
        ([("roles/a", "serviceAccount:sa@x")] : List (String × String)) ≠ []) ∧
      (merge [{ role := "roles/a", members := ["serviceAccount:sa@x"] }]
        [("roles/a", "serviceAccount:sa@x")]).1 =
        [{ role := "roles/a", members := ["serviceAccount:sa@x"] }] :=
  ⟨(C1_changed_flag _ _).1, (C1_changed_flag _ _).2 (by decide)⟩

/-- C6: the merge never removes anything: every binding of the input document
is still represented in the output by a binding with the same role containing
every one of its members, whether or not the grant set mentions them. -/
theorem C6_merge_never_drops (policy : List Binding)
    (grants : List (String × String)) (b : Binding) (hb : b ∈ policy) :
    ∃ b2 ∈ (merge policy grants).1, b2.role = b.role ∧
      ∀ x ∈ b.members, x ∈ b2.members :=
  merge_keeps policy grants b hb

/-- C6 witness: a binding not named by the grant set survives the merge. -/
theorem C6_witness :
    ∃ b2 ∈ (merge [{ role := "roles/a", members := ["user:alice@x"] }]
        [("roles/b", "serviceAccount:sa@x")]).1,
      b2.role = "roles/a" ∧ ∀ x ∈ ["user:alice@x"], x ∈ b2.members :=
  C6_merge_never_drops [{ role := "roles/a", members := ["user:alice@x"] }]
    [("roles/b", "serviceAccount:sa@x")]
    { role := "roles/a", members := ["user:alice@x"] } (by decide)

/-- C7: merging the same grant list a second time changes nothing: both the
resulting binding list and the change flag of the second merge coincide with
those of the first, so merge(merge(P, G), G) = merge(P, G). -/
theorem C7_merge_idempotent (policy : List Binding)
    (grants : List (String × String)) :
    merge (merge policy grants).1 grants = merge policy grants := by
  have h1 : (merge (merge policy grants).1 grants).1 = (merge policy grants).1 :=
    merge_fst_of_all_present _ _ (merge_all_present policy grants)
  have h2 : (merge (merge policy grants).1 grants).2 = (merge policy grants).2 := by
    rw [merge_snd, merge_snd]
  exact Prod.ext h1 h2

/-- C8: the full merging pipeline of `main` is independent of the order (and
multiplicity) in which the caller supplies the role lists, because each
section deduplicates its role set and processes it in sorted order. -/
theorem C8_order_independent (policy : List Binding) (saEmail adEmail : String)
    (saRoles1 saRoles2 adRoles1 adRoles2 : List String)
    (hsa : ∀ r, r ∈ saRoles1 ↔ r ∈ saRoles2)
    (had : ∀ r, r ∈ adRoles1 ↔ r ∈ adRoles2) :
    mainMerge policy (some (saEmail, saRoles1)) (some (adEmail, adRoles1)) =
      mainMerge policy (some (saEmail, saRoles2)) (some (adEmail, adRoles2)) := by
  simp only [mainMerge, grantsFor]
  rw [sortedDedup_ext saRoles1 saRoles2 hsa,
    sortedDedup_ext adRoles1 adRoles2 had]

/-- C8 witness: two permuted (and differently duplicated) role lists produce
the identical merge result. -/
theorem C8_witness :
    mainMerge [{ role := "roles/a", members := ["user:alice@x"] }]
        (some ("sa@x", ["roles/a", "roles/b"]))
        (some ("grp@x", ["roles/c", "roles/d", "roles/c"])) =
      mainMerge [{ role := "roles/a", members := ["user:alice@x"] }]
        (some ("sa@x", ["roles/b", "roles/a"]))
        (some ("grp@x", ["roles/d", "roles/c"])) :=
  C8_order_independent _ "sa@x" "grp@x" _ _ _ _
    (by intro r; simp; exact or_comm)
    (by intro r; simp; tauto)

/-- C4 counterexample: the apply invocation of `vertexai_iam_policy_v2.py`
receives no token from the dry-run invocation (nothing is handed off), so its
commit decision cannot depend on the plan-time baseline.  At this input the
token observed at commit time is `abc` while the plan-time baseline was the
different token `xyz`; the claim demands a Conflict result with no write, but
the script issues the `set-iam-policy` write (result `applied`, carrying the
apply-time token). -/
theorem C4_counterexample :
    applyDecision
        { bindings := [{ role := "roles/a", members := ["serviceAccount:sa@x"] }],
          etag := some "abc" }
        [("roles/b", "serviceAccount:sa@x")] =
      .applied
        { bindings := [{ role := "roles/a", members := ["serviceAccount:sa@x"] },
            { role := "roles/b", members := ["serviceAccount:sa@x"] }],
          etag := some "abc" } ∧ ("xyz" : String) ≠ "abc" := by
  constructor
  · decide
  · decide

/-- C4 amended: the apply phase uses the token fetched by the same invocation
as its baseline and performs no comparison against any plan-time token, so a
plan/apply token divergence produces no Conflict (stale-token detection is
left to the backend write).  For a well-formed fetched document (a version
token present, one binding per role, no duplicate members): when the merged
desired document is set-equal to the fetched document the result is NoOp and
no write is issued, and otherwise a write carrying the fetched token is
issued and the result is Applied. -/
theorem C4_commit_decision (current : PolicyDoc)
    (grants : List (String × String)) (t : String)
    (he : current.etag = some t) (hr : (rolesOf current.bindings).Nodup)
    (hm : ∀ b ∈ current.bindings, b.members.Nodup) :
    (docSetEqB (merge current.bindings grants).1 current.bindings = true →
        applyDecision current grants = .noOp) ∧
      (docSetEqB (merge current.bindings grants).1 current.bindings = false →
        applyDecision current grants =
          .applied { bindings := (merge current.bindings grants).1,
                     etag := some t }) := by
  constructor
  · intro hset
    have heq := merge_eq_of_docSetEq current.bindings grants hr hm hset
    simp [applyDecision, heq]
  · intro hset
    have hne : (merge current.bindings grants).1 ≠ current.bindings := by
      intro heq
      rw [heq, docSetEqB_refl] at hset
      exact absurd hset (by simp)
    simp [applyDecision, hne, he]

/-- C4 witness: the amended claim evaluated at a fetched document with token
`abc` and a grant that adds a new binding: the write is issued and carries
the fetched token. -/
theorem C4_witness :
    applyDecision
        { bindings := [{ role := "roles/a", members := ["serviceAccount:sa@x"] }],
          etag := some "abc" }
        [("roles/b", "serviceAccount:sa@x")] =
      .applied
        { bindings := (merge [{ role := "roles/a",
                                members := ["serviceAccount:sa@x"] }]
              [("roles/b", "serviceAccount:sa@x")]).1,
          etag := some "abc" } :=
  (C4_commit_decision
    { bindings := [{ role := "roles/a", members := ["serviceAccount:sa@x"] }],
      etag := some "abc" }
    [("roles/b", "serviceAccount:sa@x")] "abc" rfl (by decide) (by decide)).2
    (by decide)

/-- C3: the pool search probes the supernets strictly in the caller-given
order; when every earlier pool fails (for any mix of reasons) and pool N
resolves to a reference offering a block, the search returns that block with
pool N as source, the recorded calls being exactly the in-order probes of
the earlier pools followed by the probe of pool N — pools after N are never
touched. -/
theorem C3_priority_order (env : InfobloxEnv) (view : Option String)
    (cidrSize : Nat) (pre post : List String) (pool ref net : String)
    (more : List String)
    (hpre : ∀ p ∈ pre, (probePool env view cidrSize p).1 = none)
    (href : env.containerRef view pool = some (some ref))
    (hnet : env.nextAvailable ref cidrSize = some (net :: more)) :
    find_next_available_cidr env view cidrSize (pre ++ pool :: post) =
      (some (net, pool),
        (pre.map (fun p => (probePool env view cidrSize p).2)).flatten ++
          [.getRef view pool, .nextAvail ref cidrSize]) := by
  induction pre with
  | nil =>
    have hp : probePool env view cidrSize pool =
        (some net, [Call.getRef view pool, Call.nextAvail ref cidrSize]) := by
      simp [probePool, href, hnet]
    simp [find_next_available_cidr, hp]
  | cons q qs ih =>
    have hq := hpre q (by simp)
    cases hpq : probePool env view cidrSize q with
    | mk r1 r2 =>
      rw [hpq] at hq
      simp only at hq
      subst hq
      have ih2 := ih (fun p hp => hpre p (by simp [hp]))
      simp [find_next_available_cidr, hpq, ih2]

/-- A demonstration backend for the ordered pool search: the GET for the
first supernet raises, the second supernet resolves to no reference, the
third is exhausted, the fourth offers a block. -/
def c3Env : InfobloxEnv where
  containerRef := fun v s =>
    if v = some "view1" ∧ s = "10.0.0.0/16" then none
    else if v = some "view1" ∧ s = "10.1.0.0/16" then some none
    else if v = some "view1" ∧ s = "10.2.0.0/16" then some (some "ref2")
    else if v = some "view1" ∧ s = "10.3.0.0/16" then some (some "ref3")
    else none
  nextAvailable := fun r n =>
    if r = "ref2" ∧ n = 24 then some []
    else if r = "ref3" ∧ n = 24 then some ["10.3.7.0/24"]
    else none
  createNetwork := fun _ _ _ => true

/-- C3 witness: three earlier pools failing in three different ways, a
fourth pool with capacity, a fifth pool never probed. -/
theorem C3_witness :
    find_next_available_cidr c3Env (some "view1") 24
        (["10.0.0.0/16", "10.1.0.0/16", "10.2.0.0/16"] ++
          "10.3.0.0/16" :: ["10.4.0.0/16"]) =
      (some ("10.3.7.0/24", "10.3.0.0/16"),
        ((["10.0.0.0/16", "10.1.0.0/16", "10.2.0.0/16"] : List String).map
          (fun p => (probePool c3Env (some "view1") 24 p).2)).flatten ++
          [.getRef (some "view1") "10.3.0.0/16", .nextAvail "ref3" 24]) :=
  C3_priority_order c3Env (some "view1") 24
    ["10.0.0.0/16", "10.1.0.0/16", "10.2.0.0/16"] ["10.4.0.0/16"]
    "10.3.0.0/16" "ref3" "10.3.7.0/24" [] (by decide) (by decide) (by decide)

/-- A demonstration backend in which every supernet resolves but no supernet
has an available network. -/
def c5Env : InfobloxEnv where
  containerRef := fun v s =>
    if v = some "view1" ∧ s = "10.0.0.0/16" then some (some "refa")
    else if v = some "view1" ∧ s = "10.1.0.0/16" then some (some "refb")
    else none
  nextAvailable := fun _ _ => some []
  createNetwork := fun _ _ _ => true

/-- C5 counterexample: the exhausted-search result of
`find_next_available_cidr` is the bare pair `(None, None)`: two searches that
attempted different pool lists return the identical value even though their
backend traces differ, so the returned result enumerates no attempted pools
(the claim requires the result to carry `attemptedPools`). -/
theorem C5_counterexample :
    (find_next_available_cidr c5Env (some "view1") 24 ["10.0.0.0/16"]).1 =
        none ∧
      (find_next_available_cidr c5Env (some "view1") 24
        ["10.0.0.0/16", "10.1.0.0/16"]).1 = none ∧
      (find_next_available_cidr c5Env (some "view1") 24 ["10.0.0.0/16"]).2 ≠
        (find_next_available_cidr c5Env (some "view1") 24
          ["10.0.0.0/16", "10.1.0.0/16"]).2 := by
  decide

/-- C5 amended: when every pool fails the search returns the bare failure
sentinel `(None, None)` (no enumeration of attempted pools is part of the
result), having probed every pool in order — its backend trace is the
concatenation of the per-pool probes; in particular for the empty pool list
it returns the sentinel immediately, with no backend calls at all. -/
theorem C5_exhausted_sentinel (env : InfobloxEnv) (view : Option String)
    (cidrSize : Nat) (pools : List String)
    (h : ∀ p ∈ pools, (probePool env view cidrSize p).1 = none) :
    find_next_available_cidr env view cidrSize pools =
      (none, (pools.map (fun p => (probePool env view cidrSize p).2)).flatten) := by
  induction pools with
  | nil => rfl
  | cons q qs ih =>
    have hq := h q (by simp)
    cases hpq : probePool env view cidrSize q with
    | mk r1 r2 =>
      rw [hpq] at hq
      simp only at hq
      subst hq
      have ih2 := ih (fun p hp => h p (by simp [hp]))
      simp [find_next_available_cidr, hpq, ih2]

/-- C5 witness: the amended claim evaluated on one exhausted pool. -/
theorem C5_witness :
    find_next_available_cidr c5Env (some "view1") 24 ["10.0.0.0/16"] =
      (none, ((["10.0.0.0/16"] : List String).map
        (fun p => (probePool c5Env (some "view1") 24 p).2)).flatten) :=
  C5_exhausted_sentinel c5Env (some "view1") 24 ["10.0.0.0/16"] (by decide)

/-- C2 counterexample demo backend: the routable supernet offers the primary
block, the non-routable supernet is exhausted at the pods size (/24) but has
a block at the services size (/26). -/
def c2Env : InfobloxEnv where
  containerRef := fun v s =>
    if v = some "routable" ∧ s = "10.0.0.0/16" then some (some "refp")
    else if v = some "nonroutable" ∧ s = "100.64.0.0/10" then some (some "refn")
    else none
  nextAvailable := fun r n =>
    if r = "refp" ∧ n = 23 then some ["10.0.2.0/23"]
    else if r = "refn" ∧ n = 24 then some []
    else if r = "refn" ∧ n = 26 then some ["100.64.0.64/26"]
    else none
  createNetwork := fun _ _ _ => true

/-- C2 counterexample configuration mappings. -/
def c2Maps : String → Option NetworkConfig := fun key =>
  if key = "DevVPC" then
    some { host_project_id := some "host-proj", vpc_name := some "dev-vpc",
           supernets := some ["10.0.0.0/16"], network_view := some "routable",
           non_routable_key := some "NonRoutable" }
  else if key = "NonRoutable" then
    some { host_project_id := none, vpc_name := none,
           supernets := some ["100.64.0.0/10"],
           network_view := some "nonroutable", non_routable_key := none }
  else none

/-- C2 counterexample arguments: a GKE Cluster request. -/
def c2Args : ReserveArgs :=
  { subnet_purpose := "GKE Cluster", network_type := "DevVPC",
    primary_cidr_size := 23, gke_pods_cidr_size := 24,
    gke_services_cidr_size := 26 }

/-- C2 counterexample: primary succeeds, the pods sub-request fails
(`nextAvail refn 24` returns nothing), yet the services sub-request is still
attempted afterwards (`nextAvail refn 26` appears later in the trace), and
the final result is the bare all-`None` failure that reports neither the
succeeded primary result nor which step failed — the claim requires
evaluation to stop at the pods failure and the result to carry the earlier
successes and the failing step's detail. -/
theorem C2_counterexample :
    reserve_ips_in_infoblox c2Env c2Maps c2Args =
      (.failure,
        [.getRef (some "routable") "10.0.0.0/16", .nextAvail "refp" 23,
         .getRef (some "nonroutable") "100.64.0.0/10", .nextAvail "refn" 24,
         .getRef (some "nonroutable") "100.64.0.0/10",
         .nextAvail "refn" 26]) := by
  decide

/-- C2 amended: in a GKE compound reservation, a primary failure does stop
evaluation (no secondary sub-request is attempted and the calls are exactly
the primary probes), but once the primary succeeds the pods and the services
sub-requests are both attempted unconditionally — the trace is always
primary ++ pods ++ services — and when either secondary fails the result is
the all-`None` failure, which carries no per-sub-request outcomes. -/
theorem C2_gke_sequencing (env : InfobloxEnv)
    (infra_mappings : String → Option NetworkConfig) (args : ReserveArgs)
    (hp hv key nv : String) (sups nrSups : List String)
    (nrCfg : NetworkConfig)
    (hcfg : infra_mappings args.network_type =
      some { host_project_id := some hp, vpc_name := some hv,
             supernets := some sups, network_view := some nv,
             non_routable_key := some key })
    (hgke : args.subnet_purpose = "GKE Cluster")
    (hnr : infra_mappings key = some nrCfg)
    (hnrs : nrCfg.supernets = some nrSups) :
    ((find_next_available_cidr env (some nv) args.primary_cidr_size sups).1 =
        none →
      reserve_ips_in_infoblox env infra_mappings args =
        (.failure,
          (find_next_available_cidr env (some nv) args.primary_cidr_size
            sups).2)) ∧
      (∀ pr, (find_next_available_cidr env (some nv) args.primary_cidr_size
          sups).1 = some pr →
        (reserve_ips_in_infoblox env infra_mappings args).2 =
            (find_next_available_cidr env (some nv) args.primary_cidr_size
              sups).2 ++
            (find_next_available_cidr env nrCfg.network_view
              args.gke_pods_cidr_size nrSups).2 ++
            (find_next_available_cidr env nrCfg.network_view
              args.gke_services_cidr_size nrSups).2 ∧
          (((find_next_available_cidr env nrCfg.network_view
              args.gke_pods_cidr_size nrSups).1 = none ∨
            (find_next_available_cidr env nrCfg.network_view
              args.gke_services_cidr_size nrSups).1 = none) →
            (reserve_ips_in_infoblox env infra_mappings args).1 =
              .failure)) := by
  constructor
  · intro hfp
    simp [reserve_ips_in_infoblox, hcfg, hgke, hnr, hnrs, hfp]
  · intro pr hpr
    constructor
    · cases hpd : (find_next_available_cidr env nrCfg.network_view
          args.gke_pods_cidr_size nrSups).1 with
      | none =>
        cases hsv : (find_next_available_cidr env nrCfg.network_view
            args.gke_services_cidr_size nrSups).1 with
        | none => simp [reserve_ips_in_infoblox, hcfg, hgke, hnr, hnrs, hpr, hpd, hsv]
        | some sc => simp [reserve_ips_in_infoblox, hcfg, hgke, hnr, hnrs, hpr, hpd, hsv]
      | some pc =>
        cases hsv : (find_next_available_cidr env nrCfg.network_view
            args.gke_services_cidr_size nrSups).1 with
        | none => simp [reserve_ips_in_infoblox, hcfg, hgke, hnr, hnrs, hpr, hpd, hsv]
        | some sc => simp [reserve_ips_in_infoblox, hcfg, hgke, hnr, hnrs, hpr, hpd, hsv]
    · intro hor
      cases hpd : (find_next_available_cidr env nrCfg.network_view
          args.gke_pods_cidr_size nrSups).1 with
      | none =>
        cases hsv : (find_next_available_cidr env nrCfg.network_view
            args.gke_services_cidr_size nrSups).1 with
        | none => simp [reserve_ips_in_infoblox, hcfg, hgke, hnr, hnrs, hpr, hpd, hsv]
        | some sc => simp [reserve_ips_in_infoblox, hcfg, hgke, hnr, hnrs, hpr, hpd, hsv]
      | some pc =>
        cases hsv : (find_next_available_cidr env nrCfg.network_view
            args.gke_services_cidr_size nrSups).1 with
        | none => simp [reserve_ips_in_infoblox, hcfg, hgke, hnr, hnrs, hpr, hpd, hsv]
        | some sc =>
          rw [hpd] at hor
          rw [hsv] at hor
          rcases hor with hor | hor <;> exact absurd hor (by simp)

/-- C2 witness: the amended claim applied to the demo backend: primary
succeeded, pods failed, services was probed anyway, and the result is the
bare failure. -/
theorem C2_witness :
    (reserve_ips_in_infoblox c2Env c2Maps c2Args).1 = .failure :=
  ((C2_gke_sequencing c2Env c2Maps c2Args "host-proj" "dev-vpc" "NonRoutable"
      "routable" ["10.0.0.0/16"] ["100.64.0.0/10"]
      { host_project_id := none, vpc_name := none,
        supernets := some ["100.64.0.0/10"],
        network_view := some "nonroutable", non_routable_key := none }
      (by decide) rfl (by decide) rfl).2
    ("10.0.2.0/23", "10.0.0.0/16") (by decide)).2 (Or.inl (by decide))

/-- C9: the apply action of `infoblox-v3/create_infoblox.py` commits exactly
the proposed block: its whole backend trace is the single create call
carrying the proposed subnet — no pool-search call is ever issued — and it
fails exactly when that create fails, reserving nothing else in that case. -/
theorem C9_apply_exact (env : InfobloxEnv)
    (proposed_subnet subnet_name site_code : String) :
    (apply_action env proposed_subnet subnet_name site_code).2 =
        [.createNetwork proposed_subnet subnet_name site_code] ∧
      ((apply_action env proposed_subnet subnet_name site_code).1 = .failed ↔
        env.createNetwork proposed_subnet subnet_name site_code = false) := by
  constructor
  · rfl
  · simp only [apply_action, reserve_cidr]
    by_cases h : env.createNetwork proposed_subnet subnet_name site_code = true
    · simp [h]
    · simp only [Bool.not_eq_true] at h
      simp [h]

/-- C10: in `vertexai_iam_policy.py`, whenever at least one role is processed
for the service account or the AD group and `sys.stdout` is an ordinary
stream, the change-flag guard evaluates `sys.stdout.getvalue()`, which raises
`AttributeError`; the run therefore ends in that error and never reaches the
dry-run or apply output stage. -/
theorem C10_getvalue_crash (mode : String) (out0 : OutState)
    (current : PolicyDoc) (sa ad : Option (String × List String))
    (hk : out0.kind = .ordinaryStream)
    (hroles : (∃ p, sa = some p ∧ ¬ (sortedDedup p.2).isEmpty) ∨
      (∃ p, ad = some p ∧ ¬ (sortedDedup p.2).isEmpty)) :
    v1Main mode out0 current sa ad = .error attributeErrorMsg := by
  classical
  by_cases hsa : ∃ p, sa = some p ∧ ¬ (sortedDedup p.2).isEmpty
  · rcases hsa with ⟨p, rfl, hne⟩
    simp only [v1Main]
    rw [v1ProcessSection_ordinary_error "serviceAccount" p
      (out0, current.bindings, false) hk hne]
    rfl
  · have hskip : ∀ p, sa = some p → (sortedDedup p.2).isEmpty := by
      intro p hp
      by_contra hcon
      exact hsa ⟨p, hp, hcon⟩
    rcases hroles with h1 | h2
    · exact absurd h1 hsa
    · rcases h2 with ⟨p, rfl, hne⟩
      obtain ⟨st1, hst1, hkind⟩ :=
        v1ProcessSection_skip "serviceAccount" sa
          (out0, current.bindings, false) hskip
      simp only [v1Main, hst1, except_bind_ok]
      rw [v1ProcessSection_ordinary_error "group" p st1 (hkind.trans hk) hne]
      rfl

/-- C10 witness: a dry-run invocation with one service-account role and an
ordinary stdout crashes with the AttributeError. -/
theorem C10_witness :
    v1Main "dry-run" { kind := .ordinaryStream, lines := [] }
        { bindings := [], etag := some "abc" }
        (some ("sa@x", ["roles/a"])) none = .error attributeErrorMsg :=
  C10_getvalue_crash "dry-run" _ _ _ _ rfl
    (Or.inl ⟨("sa@x", ["roles/a"]), rfl, by decide⟩)
